import Mathlib

/-!
The dnsrouter program: a suffix-routed DNS forwarder.

A shallow embedding of `src/dnsrouter.go`.

* Go strings are modelled as lists of characters (`Str`).  The `strings`
  functions the program calls (`HasPrefix`, `HasSuffix`, `TrimPrefix`,
  `Split`, `SplitN`, `Replace`) only compare elements for equality, and every
  separator the program passes is a non-empty literal.
* A Go map is modelled by the list of its entries (unique keys); a `range`
  over the map visits the entries in an arbitrary order, which is an explicit
  argument of `handleRequest`.
* Network effects (the bootstrap lookup, the datagram exchange, the HTTP
  POST, the wire codec) are parameters; what the handler does with them is
  recorded in a trace of events.
-/

namespace DnsRouter

/-! ## Go strings -/

/-- A Go string. -/
abbrev Str := List Char

/-- Go `strings.HasPrefix(s, p)`. -/
def HasPrefix (s p : Str) : Bool := p.isPrefixOf s

/-- Go `strings.HasSuffix(s, suffix)`. -/
def HasSuffix (s suffix : Str) : Bool := suffix.isSuffixOf s

/-- Go `strings.TrimPrefix(s, p)`: `s` without the leading `p`, or `s`
unchanged when it does not start with `p`. -/
def TrimPrefix (s p : Str) : Str :=
  if HasPrefix s p then s.drop p.length else s

/-- Go `strings.Cut(s, sep)`: the text before and after the first occurrence
of `sep` in `s`, or `none` when `sep` does not occur (this is
`strings.Index` followed by the two slicings `s[:m]`, `s[m+len(sep):]`). -/
def Cut : Str → Str → Option (Str × Str)
  | [], sep => if sep.isPrefixOf [] then some ([], []) else none
  | c :: t, sep =>
    if sep.isPrefixOf (c :: t) then some ([], (c :: t).drop sep.length)
    else
      match Cut t sep with
      | none => none
      | some (a, b) => some (c :: a, b)

/-- Go `strings.genSplit(s, sep, 0, n)` for a non-empty `sep`, after `n` has
been made positive: the loop cuts `s` at most `cuts = n - 1` times and the
rest of the string is the last piece. -/
def genSplit (sep : Str) : Nat → Str → List Str
  | 0, s => [s]
  | cuts + 1, s =>
    match Cut s sep with
    | none => [s]
    | some (a, b) => a :: genSplit sep cuts b

/-- Go `strings.Split(s, sep)` for a non-empty `sep`: all pieces.  Go cuts
`strings.Count(s, sep)` times; a non-empty `sep` occurs at most `len(s)`
times, and the loop stops by itself once `sep` no longer occurs. -/
def Split (s sep : Str) : List Str := genSplit sep s.length s

/-- Go `strings.SplitN(s, sep, n)` for a non-empty `sep` and `n ≥ 0`: `nil`
for `n = 0`, otherwise at most `n` pieces, the last one unsplit. -/
def SplitN (s sep : Str) : Nat → List Str
  | 0 => []
  | n + 1 => genSplit sep n s

/-- Go `strings.Replace(s, old, new, 1)`: the first occurrence of `old`
replaced by `new`; `s` unchanged when `old` does not occur. -/
def Replace1 (s old new : Str) : Str :=
  if old = new then s
  else
    match Cut s old with
    | none => s
    | some (a, b) => a ++ new ++ b

/-! ## Go maps -/

/-- Go `m[k] = v` on a map kept as the list of its entries: the value of an
existing key is overwritten, a new key adds an entry. -/
def mapStore {V : Type} : List (Str × V) → Str → V → List (Str × V)
  | [], k, v => [(k, v)]
  | (k0, v0) :: rest, k, v =>
    if k0 = k then (k, v) :: rest else (k0, v0) :: mapStore rest k v

/-- Go `v, ok := m[k]`. -/
def mapLoad {V : Type} : List (Str × V) → Str → Option V
  | [], _ => none
  | (k0, v0) :: rest, k => if k0 = k then some v0 else mapLoad rest k

/-! ## Startup: `main` -/

/-- A `net.IP`, represented by the text its `String` method returns. -/
structure IP where
  String : Str
  deriving DecidableEq, Repr

/-- The `*http.Client` built at startup (lines 65-70): certificate
verification on, timeout of five seconds. -/
structure Client where
  InsecureSkipVerify : Bool
  TimeoutSeconds : Nat
  deriving DecidableEq, Repr

/-- The two global maps filled by `main`. -/
structure Tables where
  upstreams : List (Str × Str)
  dohClients : List (Str × Client)
  deriving DecidableEq, Repr

/-- How `main` ends: one of its three early `return`s, or the call of
`dns.HandleFunc` and `ListenAndServe` after the loop. -/
inductive Exit where
  | specError (spec : Str)
  | resolveFailed (domain : Str) (err : Str)
  | noIPs (domain : Str)
  | listenAndServe
  deriving DecidableEq, Repr

/-- The hostname `main` extracts from a DoH URL (lines 49-50).  `Split` never
returns an empty slice, so the index `[0]` cannot fail. -/
def dohDomain (dohURL : Str) : Str :=
  (Split (TrimPrefix dohURL "https://".toList) "/".toList).headD []

/-- One iteration of the loop of `main` (lines 40-71).  `none` means the loop
goes on with the next entry, `some e` that `main` returns with `e`.  The
argument `resolveTraditionalDNS` stands for the bootstrap lookup through
1.1.1.1 (lines 153-170). -/
def loopBody (resolveTraditionalDNS : Str → Except Str (List IP))
    (t : Tables) (spec : Str) : Tables × Option Exit :=
  match SplitN spec "=".toList 2 with
  | [p0, p1] =>
    let t1 : Tables := { t with upstreams := mapStore t.upstreams p0 p1 }
    if HasPrefix p1 "https://".toList then
      let domain := dohDomain p1
      match resolveTraditionalDNS domain with
      | .error err => (t1, some (Exit.resolveFailed domain err))
      | .ok [] => (t1, some (Exit.noIPs domain))
      | .ok (ip :: _) =>
        let dohURL := Replace1 p1 domain ip.String
        let client : Client := { InsecureSkipVerify := false, TimeoutSeconds := 5 }
        ({ t1 with dohClients := mapStore t1.dohClients dohURL client }, none)
    else (t1, none)
  | _ => (t, some (Exit.specError spec))

/-- The loop of `main` over the comma-separated entries (line 39), followed
by the start of the listener (lines 74-78). -/
def mainLoop (resolveTraditionalDNS : Str → Except Str (List IP)) :
    List Str → Tables → Tables × Exit
  | [], t => (t, Exit.listenAndServe)
  | spec :: rest, t =>
    match loopBody resolveTraditionalDNS t spec with
    | (t1, some e) => (t1, e)
    | (t1, none) => mainLoop resolveTraditionalDNS rest t1

/-- Function `main` (lines 33-79): both maps start empty, the value of the
`-upstreams` flag is split on commas and processed entry by entry. -/
def main (resolveTraditionalDNS : Str → Except Str (List IP))
    (upstreamSpec : Str) : Tables × Exit :=
  mainLoop resolveTraditionalDNS (Split upstreamSpec ",".toList)
    { upstreams := [], dohClients := [] }

/-! ## Serving: `handleRequest` and the two adapters -/

/-- A `dns.Question`: name, record type, class. -/
structure Question where
  Name : Str
  Qtype : Nat
  Qclass : Nat
  deriving DecidableEq, Repr

/-- A `dns.Msg`, as far as the router looks into it: the header id and
response code, the question section and the answer records. -/
structure Msg where
  Id : Nat
  Rcode : Nat
  Question : List Question
  Answer : List Str
  deriving DecidableEq, Repr

/-- The outside world of a request: the result of a datagram exchange with an
address, of packing a message, of an HTTP POST through a client (the response
body as a stream), of reading that body, of unpacking bytes. -/
structure Net where
  Exchange : Msg → Str → Except Str Msg
  Pack : Msg → Except Str (List Nat)
  Post : Client → Str → Str → List Nat → Except Str (List Nat)
  ReadAll : List Nat → Except Str (List Nat)
  Unpack : List Nat → Except Str Msg

/-- The global variables `handleRequest` reads. -/
structure Globals where
  defaultUpstream : Str
  dohClients : List (Str × Client)
  debug : Bool

/-- What a request does, in order: debug lines, the adapter it enters, the
network calls of the adapter, and what goes to the response writer. -/
inductive Event where
  | printQuery (q : Question)
  | printFailed (q : Question) (err : Str)
  | printAnswer (rr : Str)
  | callResolveDoH (r : Msg) (resolver : Str)
  | callResolveTraditionalDNSMsg (r : Msg) (resolver : Str)
  | exchange (m : Msg) (address : Str)
  | post (client : Client) (url contentType : Str) (body : List Nat)
  | handleFailed (r : Msg)
  | writeMsg (m : Msg)
  deriving DecidableEq, Repr

/-- The end of a handler run: it returned, or it stopped with a runtime
error (index out of range); either way with the events up to that point. -/
inductive Run where
  | panicked (trace : List Event)
  | returned (trace : List Event)
  deriving DecidableEq, Repr

/-- Function `resolveDoH` (lines 122-151): the events and the result. -/
def resolveDoH (net : Net) (dohClients : List (Str × Client)) (r : Msg)
    (resolver : Str) : List Event × Except Str Msg :=
  let entered := [Event.callResolveDoH r resolver]
  match mapLoad dohClients resolver with
  | none => (entered, .error ("no DoH client for resolver: ".toList ++ resolver))
  | some client =>
    match net.Pack r with
    | .error err => (entered, .error err)
    | .ok data =>
      let sent := entered ++
        [Event.post client resolver "application/dns-message".toList data]
      match net.Post client resolver "application/dns-message".toList data with
      | .error err => (sent, .error err)
      | .ok respBody =>
        match net.ReadAll respBody with
        | .error err => (sent, .error err)
        | .ok body =>
          match net.Unpack body with
          | .error err => (sent, .error err)
          | .ok msg => (sent, .ok msg)

/-- Function `resolveTraditionalDNSMsg` (lines 172-179). -/
def resolveTraditionalDNSMsg (net : Net) (r : Msg) (resolver : Str) :
    List Event × Except Str Msg :=
  let address := resolver ++ ":53".toList
  let trace := [Event.callResolveTraditionalDNSMsg r resolver, Event.exchange r address]
  match net.Exchange r address with
  | .error err => (trace, .error err)
  | .ok m => (trace, .ok m)

/-- The selection loop of `handleRequest` (lines 89-95) over the entries of
`upstreams` in the order `order` in which this `range` visits them: the value
of the first visited entry whose key followed by a dot ends the name, or the
default. -/
def selectUpstream (defaultUpstream domain : Str) : List (Str × Str) → Str
  | [] => defaultUpstream
  | (k, v) :: rest =>
    if HasSuffix domain (k ++ ".".toList) then v
    else selectUpstream defaultUpstream domain rest

/-- Function `handleRequest` (lines 81-120).  `order` lists the entries of
the map `upstreams` in the order the `range` of this call visits them.  A
successful adapter result always carries a message, so the test `m != nil`
of line 113 holds there. -/
def handleRequest (g : Globals) (net : Net) (order : List (Str × Str))
    (r : Msg) : Run :=
  match r.Question[0]? with
  | none => Run.panicked []
  | some q0 =>
    let domain := q0.Name
    let t0 := if g.debug then [Event.printQuery q0] else []
    let upstream := selectUpstream g.defaultUpstream domain order
    let res :=
      if HasPrefix upstream "https://".toList then
        resolveDoH net g.dohClients r upstream
      else resolveTraditionalDNSMsg net r upstream
    match res.2 with
    | .error err =>
      Run.returned (t0 ++ res.1
        ++ (if g.debug then [Event.printFailed q0 err] else [])
        ++ [Event.handleFailed r])
    | .ok m =>
      Run.returned (t0 ++ res.1
        ++ (if g.debug then m.Answer.map Event.printAnswer else [])
        ++ [Event.writeMsg m])

/-! ## Reading a trace -/

/-- The events of a run. -/
def Run.trace : Run → List Event
  | Run.panicked t => t
  | Run.returned t => t

/-- The adapter entries of a trace: `true` for the tunnel adapter
(`resolveDoH`), `false` for the datagram adapter, with the request and the
resolver string passed. -/
def adapterCalls (trace : List Event) : List (Bool × Msg × Str) :=
  trace.filterMap fun e =>
    match e with
    | Event.callResolveDoH r u => some (true, r, u)
    | Event.callResolveTraditionalDNSMsg r u => some (false, r, u)
    | _ => none

/-- The upstream strings handed to an adapter during a run. -/
def selected (run : Run) : List Str :=
  (adapterCalls run.trace).map (fun c => c.2.2)

/-- The datagram exchanges of a trace: request and target address. -/
def exchanges (trace : List Event) : List (Msg × Str) :=
  trace.filterMap fun e =>
    match e with
    | Event.exchange m a => some (m, a)
    | _ => none

/-- The HTTP POSTs of a trace: client, URL, content type, body. -/
def posts (trace : List Event) : List (Client × Str × Str × List Nat) :=
  trace.filterMap fun e =>
    match e with
    | Event.post c url ct body => some (c, url, ct, body)
    | _ => none

/-- What a trace sends to the response writer. -/
def responses (trace : List Event) : List Event :=
  trace.filter fun e =>
    match e with
    | Event.handleFailed _ => true
    | Event.writeMsg _ => true
    | _ => false

/-! ## Sample data -/

/-- A bootstrap lookup that resolves `dns.google` to 8.8.8.8 and fails for
every other name. -/
def sampleLookup : Str → Except Str (List IP) := fun domain =>
  if domain = "dns.google".toList then .ok [{ String := "8.8.8.8".toList }]
  else .error "no such host".toList

/-- A bootstrap lookup that answers every name with 9.9.9.9. -/
def lookupQuad9 : Str → Except Str (List IP) := fun _ =>
  .ok [{ String := "9.9.9.9".toList }]

/-- A bootstrap lookup whose answer never holds an address record. -/
def lookupEmpty : Str → Except Str (List IP) := fun _ => .ok []

/-- A network in which every datagram exchange is answered with the request
carrying one answer record, and no HTTP POST gets through. -/
def sampleNet : Net where
  Exchange := fun m _ => .ok { m with Answer := ["10.1.2.3".toList] }
  Pack := fun _ => .ok [0]
  Post := fun _ _ _ _ => .error "connection refused".toList
  ReadAll := fun body => .ok body
  Unpack := fun _ => .error "short read".toList

/-- A network in which every datagram exchange times out. -/
def deadNet : Net where
  Exchange := fun _ _ => .error "i/o timeout".toList
  Pack := fun _ => .ok [0]
  Post := fun _ _ _ _ => .error "connection refused".toList
  ReadAll := fun body => .ok body
  Unpack := fun _ => .error "short read".toList

/-- A query with one question (type A, class IN) for `name`. -/
def sampleQuery (name : Str) : Msg :=
  { Id := 1, Rcode := 0, Question := [{ Name := name, Qtype := 1, Qclass := 1 }], Answer := [] }

/-- Globals with the default of the `-default` flag, no DoH client and debug
off. -/
def sampleGlobals : Globals :=
  { defaultUpstream := "1.1.1.1".toList, dohClients := [], debug := false }

/-! ## The handler: basic facts -/

theorem adapterCalls_append (a b : List Event) :
    adapterCalls (a ++ b) = adapterCalls a ++ adapterCalls b := by
  simp [adapterCalls]

theorem exchanges_append (a b : List Event) :
    exchanges (a ++ b) = exchanges a ++ exchanges b := by
  simp [exchanges]

theorem responses_append (a b : List Event) :
    responses (a ++ b) = responses a ++ responses b := by
  simp [responses]

theorem adapterCalls_printAnswer (l : List Str) :
    adapterCalls (l.map Event.printAnswer) = [] := by
  induction l with
  | nil => rfl
  | cons a l ih => simp [adapterCalls]

theorem exchanges_printAnswer (l : List Str) :
    exchanges (l.map Event.printAnswer) = [] := by
  induction l with
  | nil => rfl
  | cons a l ih => simp [exchanges]

theorem responses_printAnswer (l : List Str) :
    responses (l.map Event.printAnswer) = [] := by
  induction l with
  | nil => rfl
  | cons a l ih => simp [responses]

theorem resolveDoH_trace (net : Net) (c : List (Str × Client)) (r : Msg) (u : Str) :
    (resolveDoH net c r u).1 = [Event.callResolveDoH r u] ∨
    ∃ client data, mapLoad c u = some client ∧ (resolveDoH net c r u).1 =
      [Event.callResolveDoH r u,
       Event.post client u "application/dns-message".toList data] := by
  unfold resolveDoH
  dsimp only
  repeat' split
  all_goals first
    | exact Or.inl rfl
    | exact Or.inr ⟨_, _, by assumption, rfl⟩

theorem resolveDoH_adapterCalls (net : Net) (c : List (Str × Client)) (r : Msg) (u : Str) :
    adapterCalls (resolveDoH net c r u).1 = [(true, r, u)] := by
  rcases resolveDoH_trace net c r u with h | ⟨client, data, _, h⟩ <;>
    rw [h] <;> simp [adapterCalls]

theorem resolveDoH_exchanges (net : Net) (c : List (Str × Client)) (r : Msg) (u : Str) :
    exchanges (resolveDoH net c r u).1 = [] := by
  rcases resolveDoH_trace net c r u with h | ⟨client, data, _, h⟩ <;>
    rw [h] <;> simp [exchanges]

theorem resolveDoH_responses (net : Net) (c : List (Str × Client)) (r : Msg) (u : Str) :
    responses (resolveDoH net c r u).1 = [] := by
  rcases resolveDoH_trace net c r u with h | ⟨client, data, _, h⟩ <;>
    rw [h] <;> simp [responses]

theorem resolveTraditionalDNSMsg_trace (net : Net) (r : Msg) (u : Str) :
    (resolveTraditionalDNSMsg net r u).1 =
      [Event.callResolveTraditionalDNSMsg r u, Event.exchange r (u ++ ":53".toList)] := by
  unfold resolveTraditionalDNSMsg
  dsimp only
  split <;> rfl

/-- The adapter `handleRequest` hands the request to, with its events and
result: the tunnel adapter for an upstream starting with `https://`, the
datagram adapter otherwise (lines 99-103). -/
theorem handleRequest_eq (g : Globals) (net : Net) (order : List (Str × Str)) (r : Msg)
    (q : Question) (qs : List Question) (hq : r.Question = q :: qs) :
    handleRequest g net order r =
      (let upstream := selectUpstream g.defaultUpstream q.Name order
       let res :=
        if HasPrefix upstream "https://".toList then resolveDoH net g.dohClients r upstream
        else resolveTraditionalDNSMsg net r upstream
       match res.2 with
       | .error err =>
         Run.returned ((if g.debug then [Event.printQuery q] else []) ++ res.1
           ++ (if g.debug then [Event.printFailed q err] else [])
           ++ [Event.handleFailed r])
       | .ok m =>
         Run.returned ((if g.debug then [Event.printQuery q] else []) ++ res.1
           ++ (if g.debug then m.Answer.map Event.printAnswer else [])
           ++ [Event.writeMsg m])) := by
  unfold handleRequest
  simp [hq]

theorem adapterCalls_debugQuery (b : Bool) (q : Question) :
    adapterCalls (if b = true then [Event.printQuery q] else []) = [] := by
  cases b <;> rfl

theorem adapterCalls_debugFailed (b : Bool) (q : Question) (e : Str) :
    adapterCalls (if b = true then [Event.printFailed q e] else []) = [] := by
  cases b <;> rfl

theorem adapterCalls_debugAnswer (b : Bool) (l : List Str) :
    adapterCalls (if b = true then l.map Event.printAnswer else []) = [] := by
  cases b
  · rfl
  · exact adapterCalls_printAnswer l

theorem adapterCalls_handleFailed (r : Msg) : adapterCalls [Event.handleFailed r] = [] := rfl

theorem adapterCalls_writeMsg (m : Msg) : adapterCalls [Event.writeMsg m] = [] := rfl

/-- The adapter entries of a handled request: exactly one, for the adapter
chosen by the scheme test, with the request and the selected upstream. -/
theorem adapterCalls_handleRequest (g : Globals) (net : Net) (order : List (Str × Str))
    (r : Msg) (q : Question) (qs : List Question) (hq : r.Question = q :: qs) :
    adapterCalls (handleRequest g net order r).trace =
      [(HasPrefix (selectUpstream g.defaultUpstream q.Name order) "https://".toList, r,
        selectUpstream g.defaultUpstream q.Name order)] := by
  rw [handleRequest_eq g net order r q qs hq]
  dsimp only
  by_cases hp : HasPrefix (selectUpstream g.defaultUpstream q.Name order) "https://".toList = true
  · rw [if_pos hp]
    split <;>
      simp only [Run.trace, adapterCalls_append, adapterCalls_debugQuery, adapterCalls_debugFailed,
        adapterCalls_debugAnswer, resolveDoH_adapterCalls, hp, adapterCalls_handleFailed,
        adapterCalls_writeMsg, List.nil_append, List.append_nil]
  · rw [if_neg hp]
    have hp2 : HasPrefix (selectUpstream g.defaultUpstream q.Name order) "https://".toList = false :=
      Bool.eq_false_iff.mpr hp
    have hc : ∀ u, adapterCalls [Event.callResolveTraditionalDNSMsg r u,
        Event.exchange r (u ++ ":53".toList)] = [(false, r, u)] := fun _ => rfl
    split <;>
      simp only [Run.trace, adapterCalls_append, adapterCalls_debugQuery, adapterCalls_debugFailed,
        adapterCalls_debugAnswer, resolveTraditionalDNSMsg_trace, hp2, hc,
        adapterCalls_handleFailed, adapterCalls_writeMsg, List.nil_append, List.append_nil]

theorem selected_handleRequest (g : Globals) (net : Net) (order : List (Str × Str))
    (r : Msg) (q : Question) (qs : List Question) (hq : r.Question = q :: qs) :
    selected (handleRequest g net order r) =
      [selectUpstream g.defaultUpstream q.Name order] := by
  unfold selected
  rw [adapterCalls_handleRequest g net order r q qs hq]
  rfl

/-- The selection loop returns the default when no visited key matches, and
otherwise the value of a visited entry whose key matches. -/
theorem selectUpstream_cases (d name : Str) (order : List (Str × Str)) :
    ((∀ e ∈ order, HasSuffix name (e.1 ++ ".".toList) = false) ∧
        selectUpstream d name order = d) ∨
    (∃ e ∈ order, HasSuffix name (e.1 ++ ".".toList) = true ∧
        selectUpstream d name order = e.2) := by
  induction order with
  | nil => exact Or.inl ⟨fun e he => absurd he (List.not_mem_nil e), rfl⟩
  | cons kv rest ih =>
    obtain ⟨k, v⟩ := kv
    by_cases hm : HasSuffix name (k ++ ".".toList) = true
    · refine Or.inr ⟨(k, v), List.mem_cons_self _ _, hm, ?_⟩
      unfold selectUpstream
      rw [if_pos hm]
    · have hm2 : HasSuffix name (k ++ ".".toList) = false := Bool.eq_false_iff.mpr hm
      have hstep : selectUpstream d name ((k, v) :: rest) = selectUpstream d name rest := by
        conv_lhs => unfold selectUpstream
        rw [if_neg hm]
      rcases ih with ⟨hall, hd⟩ | ⟨e, he, hme, hv⟩
      · refine Or.inl ⟨?_, hstep.trans hd⟩
        intro e he
        rcases List.mem_cons.mp he with rfl | he
        · exact hm2
        · exact hall e he
      · exact Or.inr ⟨e, List.mem_cons_of_mem _ he, hme, hstep.trans hv⟩

theorem exchanges_debug (b : Bool) (q : Question) (e : Str) (l : List Str) (r m : Msg) :
    exchanges (if b = true then [Event.printQuery q] else []) = [] ∧
    exchanges (if b = true then [Event.printFailed q e] else []) = [] ∧
    exchanges (if b = true then l.map Event.printAnswer else []) = [] ∧
    exchanges [Event.handleFailed r] = [] ∧ exchanges [Event.writeMsg m] = [] := by
  refine ⟨?_, ?_, ?_, rfl, rfl⟩
  · cases b <;> rfl
  · cases b <;> rfl
  · cases b
    · rfl
    · exact exchanges_printAnswer l

theorem posts_append (a b : List Event) : posts (a ++ b) = posts a ++ posts b := by
  simp [posts]

theorem posts_debug (b : Bool) (q : Question) (e : Str) (l : List Str) (r m : Msg) :
    posts (if b = true then [Event.printQuery q] else []) = [] ∧
    posts (if b = true then [Event.printFailed q e] else []) = [] ∧
    posts (if b = true then l.map Event.printAnswer else []) = [] ∧
    posts [Event.handleFailed r] = [] ∧ posts [Event.writeMsg m] = [] := by
  refine ⟨?_, ?_, ?_, rfl, rfl⟩
  · cases b <;> rfl
  · cases b <;> rfl
  · cases b
    · rfl
    · induction l with
      | nil => rfl
      | cons a l ih => simp [posts]

theorem responses_debug (b : Bool) (q : Question) (e : Str) (l : List Str) :
    responses (if b = true then [Event.printQuery q] else []) = [] ∧
    responses (if b = true then [Event.printFailed q e] else []) = [] ∧
    responses (if b = true then l.map Event.printAnswer else []) = [] := by
  refine ⟨?_, ?_, ?_⟩
  · cases b <;> rfl
  · cases b <;> rfl
  · cases b
    · rfl
    · exact responses_printAnswer l

/-- The trace of a handled request, split into its four segments. -/
theorem trace_handleRequest (g : Globals) (net : Net) (order : List (Str × Str))
    (r : Msg) (q : Question) (qs : List Question) (hq : r.Question = q :: qs) :
    ∃ dbg final,
      handleRequest g net order r = Run.returned
        ((if g.debug = true then [Event.printQuery q] else []) ++
          (if HasPrefix (selectUpstream g.defaultUpstream q.Name order) "https://".toList = true
            then resolveDoH net g.dohClients r (selectUpstream g.defaultUpstream q.Name order)
            else resolveTraditionalDNSMsg net r
              (selectUpstream g.defaultUpstream q.Name order)).1 ++ dbg ++ [final]) ∧
      final = (match (if HasPrefix (selectUpstream g.defaultUpstream q.Name order)
                    "https://".toList = true
                  then resolveDoH net g.dohClients r (selectUpstream g.defaultUpstream q.Name order)
                  else resolveTraditionalDNSMsg net r
                    (selectUpstream g.defaultUpstream q.Name order)).2 with
               | .error _ => Event.handleFailed r
               | .ok m => Event.writeMsg m) ∧
      adapterCalls dbg = [] ∧ exchanges dbg = [] ∧ posts dbg = [] ∧ responses dbg = [] := by
  rw [handleRequest_eq g net order r q qs hq]
  dsimp only
  split
  · rename_i err heq
    exact ⟨_, _, rfl, rfl, adapterCalls_debugFailed _ _ _,
      (exchanges_debug g.debug q err [] r r).2.1, (posts_debug g.debug q err [] r r).2.1,
      (responses_debug g.debug q err []).2.1⟩
  · rename_i m heq
    exact ⟨_, _, rfl, rfl, adapterCalls_debugAnswer _ _,
      (exchanges_debug g.debug q [] m.Answer r r).2.2.1, (posts_debug g.debug q [] m.Answer r r).2.2.1,
      (responses_debug g.debug q [] m.Answer).2.2⟩

theorem responses_handleRequest (g : Globals) (net : Net) (order : List (Str × Str))
    (r : Msg) (q : Question) (qs : List Question) (hq : r.Question = q :: qs) :
    responses (handleRequest g net order r).trace =
      [match (if HasPrefix (selectUpstream g.defaultUpstream q.Name order)
                    "https://".toList = true
                  then resolveDoH net g.dohClients r (selectUpstream g.defaultUpstream q.Name order)
                  else resolveTraditionalDNSMsg net r
                    (selectUpstream g.defaultUpstream q.Name order)).2 with
               | .error _ => Event.handleFailed r
               | .ok m => Event.writeMsg m] := by
  obtain ⟨dbg, final, htr, hfinal, -, -, -, hdbg⟩ := trace_handleRequest g net order r q qs hq
  rw [htr, ← hfinal]
  simp only [Run.trace, responses_append, hdbg, (responses_debug g.debug q [] []).1,
    List.nil_append, List.append_nil]
  have hres : responses (if HasPrefix (selectUpstream g.defaultUpstream q.Name order)
        "https://".toList = true
      then resolveDoH net g.dohClients r (selectUpstream g.defaultUpstream q.Name order)
      else resolveTraditionalDNSMsg net r (selectUpstream g.defaultUpstream q.Name order)).1 = [] := by
    split
    · exact resolveDoH_responses _ _ _ _
    · rw [resolveTraditionalDNSMsg_trace]; rfl
  rw [hres]
  have hf : responses [final] = [final] := by
    rw [hfinal]
    split <;> rfl
  rw [hf]
  rfl

theorem HasSuffix_iff (s t : Str) : HasSuffix s t = true ↔ t <:+ s := by
  unfold HasSuffix
  exact List.isSuffixOf_iff_suffix

theorem suffix_of_append_dot {a b c : Str} (h : (a ++ c) <:+ (b ++ c)) : a <:+ b := by
  obtain ⟨t, ht⟩ := h
  refine ⟨t, ?_⟩
  rw [← List.append_assoc] at ht
  exact List.append_cancel_right ht

/-- C3: the upstream `handleRequest` selects is the default upstream when no
table key `k` has `k + "."` at the end of the first question name, and
otherwise the upstream of an entry whose key does, whatever order the range
over the table takes; when exactly two entries match it is the upstream of
one of the two. -/
theorem handleRequest_selects_default_or_match (g : Globals) (net : Net)
    (table order : List (Str × Str)) (r : Msg) (q : Question) (qs : List Question)
    (hperm : order.Perm table) (hq : r.Question = q :: qs) :
    ((∀ e ∈ table, HasSuffix q.Name (e.1 ++ ".".toList) = false) →
        selected (handleRequest g net order r) = [g.defaultUpstream]) ∧
    ((∃ e ∈ table, HasSuffix q.Name (e.1 ++ ".".toList) = true) →
        ∃ e ∈ table, HasSuffix q.Name (e.1 ++ ".".toList) = true ∧
          selected (handleRequest g net order r) = [e.2]) ∧
    (∀ e1 e2, table.filter (fun e => HasSuffix q.Name (e.1 ++ ".".toList)) = [e1, e2] →
        selected (handleRequest g net order r) = [e1.2] ∨
        selected (handleRequest g net order r) = [e2.2]) := by
  rw [selected_handleRequest g net order r q qs hq]
  have hcases := selectUpstream_cases g.defaultUpstream q.Name order
  have hex : (∃ e ∈ table, HasSuffix q.Name (e.1 ++ ".".toList) = true) →
      ∃ e ∈ table, HasSuffix q.Name (e.1 ++ ".".toList) = true ∧
        [selectUpstream g.defaultUpstream q.Name order] = [e.2] := by
    rintro ⟨e, he, hm⟩
    rcases hcases with ⟨hall, -⟩ | ⟨e2, he2, hm2, hv⟩
    · have := hall e (hperm.mem_iff.mpr he)
      rw [hm] at this
      exact absurd this (by decide)
    · exact ⟨e2, hperm.mem_iff.mp he2, hm2, by rw [hv]⟩
  refine ⟨?_, hex, ?_⟩
  · intro hnone
    rcases hcases with ⟨-, hd⟩ | ⟨e, he, hm, -⟩
    · rw [hd]
    · have := hnone e (hperm.mem_iff.mp he)
      rw [hm] at this
      exact absurd this (by decide)
  · intro e1 e2 hf
    have h1 : e1 ∈ table.filter (fun e => HasSuffix q.Name (e.1 ++ ".".toList)) := by
      rw [hf]; exact List.mem_cons_self _ _
    obtain ⟨e, he, hm, hv⟩ := hex ⟨e1, (List.mem_filter.mp h1).1, (List.mem_filter.mp h1).2⟩
    have hmem : e ∈ table.filter (fun e => HasSuffix q.Name (e.1 ++ ".".toList)) :=
      List.mem_filter.mpr ⟨he, hm⟩
    rw [hf] at hmem
    rcases List.mem_cons.mp hmem with rfl | hmem
    · exact Or.inl hv
    · rcases List.mem_cons.mp hmem with rfl | hmem
      · exact Or.inr hv
      · exact absurd hmem (List.not_mem_nil _)

/-- C2 (amended): in a table where no configured suffix is equal to, or a
string suffix of, another configured suffix, a query whose first question
name ends with `S + "."` for a configured suffix `S` is handed to exactly the
upstream the table associates with `S`, whatever order the range takes. -/
theorem handleRequest_routes_to_suffix (g : Globals) (net : Net)
    (table order : List (Str × Str)) (r : Msg) (q : Question) (qs : List Question)
    (S v : Str)
    (hperm : order.Perm table) (hq : r.Question = q :: qs)
    (hdisj : ∀ a ∈ table, ∀ b ∈ table, a ≠ b → ¬ a.1 <:+ b.1)
    (hS : (S, v) ∈ table)
    (hname : (S ++ ".".toList) <:+ q.Name) :
    selected (handleRequest g net order r) = [v] := by
  rw [selected_handleRequest g net order r q qs hq]
  rcases selectUpstream_cases g.defaultUpstream q.Name order with ⟨hall, -⟩ | ⟨e, he, hm, hv⟩
  · have := hall (S, v) (hperm.mem_iff.mpr hS)
    rw [(HasSuffix_iff _ _).mpr hname] at this
    exact absurd this (by decide)
  · have he' : e ∈ table := hperm.mem_iff.mp he
    have hsuf : (e.1 ++ ".".toList) <:+ q.Name := (HasSuffix_iff _ _).mp hm
    by_cases heq : e = (S, v)
    · rw [hv, heq]
    · exfalso
      rcases List.suffix_or_suffix_of_suffix hsuf hname with h | h
      · exact hdisj e he' (S, v) hS heq (suffix_of_append_dot h)
      · exact hdisj (S, v) hS e he' (fun h2 => heq h2.symm) (suffix_of_append_dot h)

/-- C8: a request whose selected upstream is `u` enters exactly one adapter,
exactly once: the tunnel adapter with `u` unchanged when `u` starts with
`https://` (any POST goes to the URL `u` through the client stored under the
key `u`, and there is no datagram exchange), and otherwise the datagram
adapter, whose single exchange is addressed to `u + ":53"` (and there is no
POST). -/
theorem handleRequest_dispatch (g : Globals) (net : Net) (order : List (Str × Str))
    (r : Msg) (q : Question) (qs : List Question) (u : Str)
    (hq : r.Question = q :: qs)
    (hu : selectUpstream g.defaultUpstream q.Name order = u) :
    (HasPrefix u "https://".toList = true →
      adapterCalls (handleRequest g net order r).trace = [(true, r, u)] ∧
      exchanges (handleRequest g net order r).trace = [] ∧
      ∀ p ∈ posts (handleRequest g net order r).trace,
        p.2.1 = u ∧ mapLoad g.dohClients u = some p.1) ∧
    (HasPrefix u "https://".toList = false →
      adapterCalls (handleRequest g net order r).trace = [(false, r, u)] ∧
      exchanges (handleRequest g net order r).trace = [(r, u ++ ":53".toList)] ∧
      posts (handleRequest g net order r).trace = []) := by
  have hcalls := adapterCalls_handleRequest g net order r q qs hq
  obtain ⟨dbg, final, htr, hfinal, -, hdbgE, hdbgP, -⟩ := trace_handleRequest g net order r q qs hq
  rw [hu] at hcalls htr hfinal
  have hfE : exchanges [final] = [] := by
    rw [hfinal]; split <;> rfl
  have hfP : posts [final] = [] := by
    rw [hfinal]; split <;> rfl
  constructor
  · intro hp
    rw [hp] at hcalls
    rw [if_pos hp] at htr
    refine ⟨hcalls, ?_, ?_⟩
    · rw [htr]
      simp only [Run.trace, exchanges_append, hdbgE, hfE, resolveDoH_exchanges,
        (exchanges_debug g.debug q [] [] r r).1, List.append_nil]
    · rw [htr]
      simp only [Run.trace, posts_append, hdbgP, hfP,
        (posts_debug g.debug q [] [] r r).1, List.append_nil, List.nil_append]
      intro p hp
      rcases resolveDoH_trace net g.dohClients r u with h | ⟨client, data, hload, h⟩
      · rw [h] at hp
        exact absurd hp (List.not_mem_nil _)
      · rw [h] at hp
        have hp2 : p = (client, u, "application/dns-message".toList, data) := by
          simpa [posts] using hp
        rw [hp2]
        exact ⟨rfl, hload⟩
  · intro hp
    rw [hp] at hcalls
    have hne : ¬ HasPrefix u "https://".toList = true := by rw [hp]; decide
    rw [if_neg hne] at htr
    refine ⟨hcalls, ?_, ?_⟩
    · rw [htr]
      simp only [Run.trace, exchanges_append, hdbgE, hfE, resolveTraditionalDNSMsg_trace,
        (exchanges_debug g.debug q [] [] r r).1, List.append_nil, List.nil_append]
      rfl
    · rw [htr]
      simp only [Run.trace, posts_append, hdbgP, hfP, resolveTraditionalDNSMsg_trace,
        (posts_debug g.debug q [] [] r r).1, List.append_nil, List.nil_append]
      rfl

/-- C9: a request with at least one question sends exactly one response to
the requester: the standard failure response `dns.HandleFailed(w, r)` for this
request when the adapter returned an error (whatever the error, the missing
DoH client included), the adapter's message unchanged when it succeeded; and
the response does not depend on the debug flag. -/
theorem handleRequest_one_response (g : Globals) (net : Net) (order : List (Str × Str))
    (r : Msg) (q : Question) (qs : List Question) (u : Str)
    (hq : r.Question = q :: qs)
    (hu : selectUpstream g.defaultUpstream q.Name order = u) :
    (responses (handleRequest g net order r).trace).length = 1 ∧
    (∀ err, (if HasPrefix u "https://".toList = true then resolveDoH net g.dohClients r u
              else resolveTraditionalDNSMsg net r u).2 = .error err →
        responses (handleRequest g net order r).trace = [Event.handleFailed r]) ∧
    (∀ m, (if HasPrefix u "https://".toList = true then resolveDoH net g.dohClients r u
              else resolveTraditionalDNSMsg net r u).2 = .ok m →
        responses (handleRequest g net order r).trace = [Event.writeMsg m]) ∧
    (HasPrefix u "https://".toList = true → mapLoad g.dohClients u = none →
        responses (handleRequest g net order r).trace = [Event.handleFailed r]) ∧
    (∀ b : Bool,
        responses (handleRequest { g with debug := b } net order r).trace =
          responses (handleRequest g net order r).trace) := by
  have hresp := responses_handleRequest g net order r q qs hq
  rw [hu] at hresp
  refine ⟨by rw [hresp]; rfl, ?_, ?_, ?_, ?_⟩
  · intro err herr
    rw [hresp, herr]
  · intro m hm
    rw [hresp, hm]
  · intro hp hload
    rw [hresp, if_pos hp]
    have : (resolveDoH net g.dohClients r u).2 =
        .error ("no DoH client for resolver: ".toList ++ u) := by
      unfold resolveDoH
      rw [hload]
    rw [this]
  · intro b
    have hresp2 := responses_handleRequest { g with debug := b } net order r q qs hq
    rw [hresp2, hresp]
    dsimp only
    rw [hu]

/-- C10: with a non-empty question list the access to the first question
succeeds and the handler returns, and the upstream it selects depends only on
the first question name, the table order and the default upstream; with an
empty question list the access fails before any event, so no response is
produced. -/
theorem handleRequest_first_question (g : Globals) (net : Net) (order : List (Str × Str))
    (r : Msg) :
    (∀ q qs, r.Question = q :: qs →
      (∃ trace, handleRequest g net order r = Run.returned trace) ∧
      selected (handleRequest g net order r) =
        [selectUpstream g.defaultUpstream q.Name order]) ∧
    (∀ (g2 : Globals) (net2 : Net) (r2 : Msg) q qs q2 qs2,
      r.Question = q :: qs → r2.Question = q2 :: qs2 → q2.Name = q.Name →
      g2.defaultUpstream = g.defaultUpstream →
      selected (handleRequest g2 net2 order r2) = selected (handleRequest g net order r)) ∧
    (r.Question = [] →
      handleRequest g net order r = Run.panicked [] ∧
      responses (handleRequest g net order r).trace = []) := by
  refine ⟨?_, ?_, ?_⟩
  · intro q qs hq
    obtain ⟨dbg, final, htr, -⟩ := trace_handleRequest g net order r q qs hq
    exact ⟨⟨_, htr⟩, selected_handleRequest g net order r q qs hq⟩
  · intro g2 net2 r2 q qs q2 qs2 hq hq2 hname hdef
    rw [selected_handleRequest g net order r q qs hq,
      selected_handleRequest g2 net2 order r2 q2 qs2 hq2, hname, hdef]
  · intro hq
    have : handleRequest g net order r = Run.panicked [] := by
      unfold handleRequest
      rw [hq]
      rfl
    rw [this]
    exact ⟨rfl, rfl⟩

/-! ## Startup: splitting and the loop -/

theorem Cut_char_none_iff (c : Char) (s : Str) : Cut s [c] = none ↔ c ∉ s := by
  induction s with
  | nil => simp [Cut]
  | cons d t ih =>
    unfold Cut
    by_cases hd : c = d
    · subst hd
      simp
    · have hp : List.isPrefixOf [c] (d :: t) = false := by
        simp [List.isPrefixOf, hd]
      rw [hp]
      simp only [Bool.false_eq_true, if_false]
      cases hcut : Cut t [c] with
      | none =>
        have := ih.mp hcut
        simp [hd, this]
      | some ab =>
        have hne : c ∈ t := by
          by_contra hcon
          rw [ih.mpr hcon] at hcut
          exact Option.noConfusion hcut
        simp [hne]

theorem Cut_char_first (c : Char) (k v : Str) (hk : c ∉ k) :
    Cut (k ++ c :: v) [c] = some (k, v) := by
  induction k with
  | nil =>
    show Cut (c :: v) [c] = some ([], v)
    unfold Cut
    simp [List.isPrefixOf]
  | cons d t ih =>
    have hd : c ≠ d := fun h => hk (h ▸ List.mem_cons_self _ _)
    have ht : c ∉ t := fun h => hk (List.mem_cons_of_mem _ h)
    show Cut (d :: (t ++ c :: v)) [c] = some (d :: t, v)
    unfold Cut
    have hp : List.isPrefixOf [c] (d :: (t ++ c :: v)) = false := by
      simp [List.isPrefixOf, hd]
    rw [hp, ih ht]
    rfl

theorem Cut_char_some (c : Char) (s a b : Str) (h : Cut s [c] = some (a, b)) :
    s = a ++ c :: b ∧ c ∉ a := by
  induction s generalizing a with
  | nil => simp [Cut] at h
  | cons d t ih =>
    unfold Cut at h
    by_cases hd : c = d
    · subst hd
      simp [List.isPrefixOf] at h
      obtain ⟨rfl, rfl⟩ := h
      simp
    · have hp : List.isPrefixOf [c] (d :: t) = false := by
        simp [List.isPrefixOf, hd]
      rw [hp] at h
      simp only [Bool.false_eq_true, if_false] at h
      cases hcut : Cut t [c] with
      | none => rw [hcut] at h; exact Option.noConfusion h
      | some ab =>
        obtain ⟨a2, b2⟩ := ab
        rw [hcut] at h
        simp only [Option.some.injEq, Prod.mk.injEq] at h
        obtain ⟨rfl, rfl⟩ := h
        obtain ⟨h1, h2⟩ := ih a2 hcut
        refine ⟨by rw [h1]; rfl, ?_⟩
        intro hmem
        rcases List.mem_cons.mp hmem with h3 | h3
        · exact hd h3
        · exact h2 h3

theorem SplitN_two (s sep : Str) :
    SplitN s sep 2 =
      match Cut s sep with
      | none => [s]
      | some (a, b) => [a, b] := by
  show genSplit sep 1 s = _
  unfold genSplit
  cases Cut s sep with
  | none => rfl
  | some ab => rfl

theorem SplitN_eq_no_sep (e : Str) (h : '=' ∉ e) : SplitN e "=".toList 2 = [e] := by
  rw [SplitN_two]
  have : Cut e "=".toList = none := (Cut_char_none_iff '=' e).mpr h
  rw [this]

theorem SplitN_eq_sep (e : Str) (h : '=' ∈ e) :
    ∃ a b, SplitN e "=".toList 2 = [a, b] ∧ e = a ++ '=' :: b ∧ '=' ∉ a := by
  rw [SplitN_two]
  cases hcut : Cut e "=".toList with
  | none => exact absurd h ((Cut_char_none_iff '=' e).mp hcut)
  | some ab =>
    obtain ⟨a, b⟩ := ab
    exact ⟨a, b, rfl, Cut_char_some '=' e a b hcut⟩

theorem mapLoad_mapStore {V : Type} (m : List (Str × V)) (k : Str) (v : V) :
    mapLoad (mapStore m k v) k = some v := by
  induction m with
  | nil => simp [mapStore, mapLoad]
  | cons kv rest ih =>
    obtain ⟨k0, v0⟩ := kv
    unfold mapStore
    by_cases h : k0 = k
    · rw [if_pos h]
      simp [mapLoad]
    · rw [if_neg h]
      unfold mapLoad
      rw [if_neg h]
      exact ih

theorem loopBody_no_sep (lk : Str → Except Str (List IP)) (t : Tables) (e : Str)
    (h : '=' ∉ e) : loopBody lk t e = (t, some (Exit.specError e)) := by
  unfold loopBody
  rw [SplitN_eq_no_sep e h]

/-- The loop body on an entry that splits into `k` and `v`. -/
theorem loopBody_two (lk : Str → Except Str (List IP)) (t : Tables) (e k v : Str)
    (h : SplitN e "=".toList 2 = [k, v]) :
    loopBody lk t e =
      (if HasPrefix v "https://".toList = true then
        match lk (dohDomain v) with
        | .error err =>
          ({ t with upstreams := mapStore t.upstreams k v },
            some (Exit.resolveFailed (dohDomain v) err))
        | .ok [] =>
          ({ t with upstreams := mapStore t.upstreams k v }, some (Exit.noIPs (dohDomain v)))
        | .ok (ip :: _) =>
          ({ upstreams := mapStore t.upstreams k v,
             dohClients := mapStore t.dohClients (Replace1 v (dohDomain v) ip.String)
               { InsecureSkipVerify := false, TimeoutSeconds := 5 } }, none)
      else ({ t with upstreams := mapStore t.upstreams k v }, none)) := by
  unfold loopBody
  rw [h]

theorem loopBody_two_exit (lk : Str → Except Str (List IP)) (t : Tables) (e k v : Str)
    (h : SplitN e "=".toList 2 = [k, v]) (x : Str) :
    (loopBody lk t e).2 ≠ some (Exit.specError x) ∧
    (loopBody lk t e).2 ≠ some Exit.listenAndServe ∧
    mapLoad (loopBody lk t e).1.upstreams k = some v := by
  rw [loopBody_two lk t e k v h]
  split
  · split <;> exact ⟨by simp, by simp, mapLoad_mapStore _ _ _⟩
  · exact ⟨by simp, by simp, mapLoad_mapStore _ _ _⟩

theorem loopBody_exit_ne_listen (lk : Str → Except Str (List IP)) (t : Tables) (e : Str) :
    (loopBody lk t e).2 ≠ some Exit.listenAndServe := by
  by_cases h : '=' ∈ e
  · obtain ⟨a, b, hab, -, -⟩ := SplitN_eq_sep e h
    exact (loopBody_two_exit lk t e a b hab []).2.1
  · rw [loopBody_no_sep lk t e h]
    simp

/-- Whether the loop body returns, and with what, does not depend on the
tables built so far. -/
theorem loopBody_exit_indep (lk : Str → Except Str (List IP)) (t t2 : Tables) (e : Str) :
    (loopBody lk t e).2 = (loopBody lk t2 e).2 := by
  by_cases h : '=' ∈ e
  · obtain ⟨a, b, hab, -, -⟩ := SplitN_eq_sep e h
    rw [loopBody_two lk t e a b hab, loopBody_two lk t2 e a b hab]
    split
    · split <;> rfl
    · rfl
  · rw [loopBody_no_sep lk t e h, loopBody_no_sep lk t2 e h]

theorem loopBody_specError_iff (lk : Str → Except Str (List IP)) (t : Tables) (e x : Str) :
    (loopBody lk t e).2 = some (Exit.specError x) ↔ ('=' ∉ e ∧ x = e) := by
  by_cases h : '=' ∈ e
  · obtain ⟨a, b, hab, -, -⟩ := SplitN_eq_sep e h
    constructor
    · intro hx
      exact absurd hx (loopBody_two_exit lk t e a b hab x).1
    · intro hx
      exact absurd h hx.1
  · rw [loopBody_no_sep lk t e h]
    constructor
    · intro hx
      simp only [Option.some.injEq, Exit.specError.injEq] at hx
      exact ⟨h, hx.symm⟩
    · rintro ⟨-, rfl⟩
      rfl

theorem mainLoop_cons_none (lk : Str → Except Str (List IP)) (t : Tables) (e : Str)
    (rest : List Str) (h : (loopBody lk t e).2 = none) :
    mainLoop lk (e :: rest) t = mainLoop lk rest (loopBody lk t e).1 := by
  conv_lhs => unfold mainLoop
  cases hb : loopBody lk t e with
  | mk t1 o =>
    rw [hb] at h
    dsimp only at h
    subst h
    rfl

theorem mainLoop_cons_some (lk : Str → Except Str (List IP)) (t : Tables) (e : Str)
    (rest : List Str) (x : Exit) (h : (loopBody lk t e).2 = some x) :
    mainLoop lk (e :: rest) t = ((loopBody lk t e).1, x) := by
  conv_lhs => unfold mainLoop
  cases hb : loopBody lk t e with
  | mk t1 o =>
    rw [hb] at h
    dsimp only at h
    subst h
    rfl

/-- When every entry of `pre` passes the loop body, the loop over
`pre ++ rest` continues on `rest` with the tables built from `pre`, and the
loop over `pre` alone runs to its end. -/
theorem mainLoop_append (lk : Str → Except Str (List IP)) (pre rest : List Str) (t : Tables)
    (hpre : ∀ p ∈ pre, ∀ t0, (loopBody lk t0 p).2 = none) :
    mainLoop lk (pre ++ rest) t = mainLoop lk rest (mainLoop lk pre t).1 ∧
    (mainLoop lk pre t).2 = Exit.listenAndServe := by
  induction pre generalizing t with
  | nil => exact ⟨rfl, rfl⟩
  | cons p ps ih =>
    have hp := hpre p (List.mem_cons_self _ _) t
    have hps : ∀ p ∈ ps, ∀ t0, (loopBody lk t0 p).2 = none :=
      fun p hp t0 => hpre p (List.mem_cons_of_mem _ hp) t0
    rw [List.cons_append, mainLoop_cons_none lk t p _ hp, mainLoop_cons_none lk t p _ hp]
    exact ih _ hps

/-- The loop ends with an early return `x` exactly at the first entry whose
loop body returns, and that entry returns `x`. -/
theorem mainLoop_exit_iff (lk : Str → Except Str (List IP)) (l : List Str) (t : Tables)
    (x : Exit) (hx : x ≠ Exit.listenAndServe) :
    (mainLoop lk l t).2 = x ↔
      ∃ pre e post, l = pre ++ e :: post ∧
        (∀ p ∈ pre, ∀ t0, (loopBody lk t0 p).2 = none) ∧
        ∀ t0, (loopBody lk t0 e).2 = some x := by
  induction l generalizing t with
  | nil =>
    constructor
    · intro h
      exact absurd h.symm hx
    · rintro ⟨pre, e, post, h, -⟩
      exact absurd h (by simp)
  | cons a l ih =>
    cases ha : (loopBody lk t a).2 with
    | none =>
      rw [mainLoop_cons_none lk t a l ha, ih]
      constructor
      · rintro ⟨pre, e, post, h1, h2, h3⟩
        refine ⟨a :: pre, e, post, by rw [h1]; rfl, ?_, h3⟩
        intro p hp t0
        rcases List.mem_cons.mp hp with rfl | hp
        · rw [loopBody_exit_indep lk t0 t p]; exact ha
        · exact h2 p hp t0
      · rintro ⟨pre, e, post, h1, h2, h3⟩
        cases pre with
        | nil =>
          simp only [List.nil_append, List.cons.injEq] at h1
          obtain ⟨rfl, rfl⟩ := h1
          rw [h3 t] at ha
          exact Option.noConfusion ha
        | cons p ps =>
          simp only [List.cons_append, List.cons.injEq] at h1
          obtain ⟨rfl, rfl⟩ := h1
          exact ⟨ps, e, post, rfl, fun p hp t0 => h2 p (List.mem_cons_of_mem _ hp) t0, h3⟩
    | some y =>
      rw [mainLoop_cons_some lk t a l y ha]
      constructor
      · intro h
        dsimp only at h
        subst h
        refine ⟨[], a, l, rfl, fun p hp => absurd hp (List.not_mem_nil _), ?_⟩
        intro t0
        rw [loopBody_exit_indep lk t0 t a]; exact ha
      · rintro ⟨pre, e, post, h1, h2, h3⟩
        cases pre with
        | nil =>
          simp only [List.nil_append, List.cons.injEq] at h1
          obtain ⟨rfl, rfl⟩ := h1
          rw [h3 t] at ha
          simp only [Option.some.injEq] at ha
          exact ha.symm
        | cons p ps =>
          simp only [List.cons_append, List.cons.injEq] at h1
          obtain ⟨rfl, rfl⟩ := h1
          have := h2 a (List.mem_cons_self _ _) t
          rw [this] at ha
          exact Option.noConfusion ha

/-- The listener is started exactly when every entry passes the loop body. -/
theorem mainLoop_listen_iff (lk : Str → Except Str (List IP)) (l : List Str) (t : Tables) :
    (mainLoop lk l t).2 = Exit.listenAndServe ↔
      ∀ p ∈ l, ∀ t0, (loopBody lk t0 p).2 = none := by
  induction l generalizing t with
  | nil => exact ⟨fun _ p hp => absurd hp (List.not_mem_nil _), fun _ => rfl⟩
  | cons a l ih =>
    cases ha : (loopBody lk t a).2 with
    | none =>
      rw [mainLoop_cons_none lk t a l ha, ih]
      constructor
      · intro h p hp t0
        rcases List.mem_cons.mp hp with rfl | hp
        · rw [loopBody_exit_indep lk t0 t p]; exact ha
        · exact h p hp t0
      · intro h p hp t0
        exact h p (List.mem_cons_of_mem _ hp) t0
    | some y =>
      rw [mainLoop_cons_some lk t a l y ha]
      constructor
      · intro h
        dsimp only at h
        subst h
        exact absurd ha (loopBody_exit_ne_listen lk t a)
      · intro h
        have := h a (List.mem_cons_self _ _) t
        rw [this] at ha
        exact Option.noConfusion ha

/-- What `Cut` returns are the texts around an occurrence of `sep`. -/
theorem Cut_some_eq (sep : Str) (s a b : Str) (h : Cut s sep = some (a, b)) :
    s = a ++ sep ++ b := by
  induction s generalizing a with
  | nil =>
    unfold Cut at h
    split at h
    · rename_i hp
      have hsep : sep = [] := List.prefix_nil.mp (List.isPrefixOf_iff_prefix.mp hp)
      simp only [Option.some.injEq, Prod.mk.injEq] at h
      obtain ⟨rfl, rfl⟩ := h
      rw [hsep]
      rfl
    · exact Option.noConfusion h
  | cons d t ih =>
    unfold Cut at h
    split at h
    · rename_i hp
      obtain ⟨r, hr⟩ := List.isPrefixOf_iff_prefix.mp hp
      simp only [Option.some.injEq, Prod.mk.injEq] at h
      obtain ⟨rfl, rfl⟩ := h
      rw [← hr, List.drop_left]
      rfl
    · cases hcut : Cut t sep with
      | none => rw [hcut] at h; exact Option.noConfusion h
      | some ab =>
        obtain ⟨a2, b2⟩ := ab
        rw [hcut] at h
        simp only [Option.some.injEq, Prod.mk.injEq] at h
        obtain ⟨rfl, rfl⟩ := h
        rw [ih a2 hcut]
        rfl

/-- For a non-empty separator the pieces do not depend on the number of cuts
allowed, once it is at least the length of the string: the bound used by
`Split` never cuts the loop short. -/
theorem genSplit_fuel (sep : Str) (hsep : sep ≠ []) (n : Nat) :
    ∀ (m : Nat) (s : Str), s.length ≤ n → s.length ≤ m →
      genSplit sep n s = genSplit sep m s := by
  have hnil : ∀ k, genSplit sep k [] = [[]] := by
    intro k
    cases k with
    | zero => rfl
    | succ k =>
      unfold genSplit
      have : Cut [] sep = none := by
        unfold Cut
        have hp : sep.isPrefixOf [] = false := by
          cases sep with
          | nil => exact absurd rfl hsep
          | cons c t => rfl
        rw [hp]
        rfl
      rw [this]
  induction n with
  | zero =>
    intro m s hn _
    have hs : s = [] := List.length_eq_zero.mp (Nat.le_zero.mp hn)
    subst hs
    rw [hnil, hnil]
  | succ n ih =>
    intro m s hn hm
    cases m with
    | zero =>
      have hs : s = [] := List.length_eq_zero.mp (Nat.le_zero.mp hm)
      subst hs
      rw [hnil, hnil]
    | succ m =>
      unfold genSplit
      cases hcut : Cut s sep with
      | none => rfl
      | some ab =>
        obtain ⟨a, b⟩ := ab
        have hs := Cut_some_eq sep s a b hcut
        have hlen : b.length < s.length := by
          have h1 : s.length = a.length + sep.length + b.length := by
            rw [hs, List.length_append, List.length_append]
          have h2 : 0 < sep.length := List.length_pos.mpr hsep
          omega
        dsimp only
        rw [ih m b (by omega) (by omega)]

theorem genSplit_nil (c : Char) (n : Nat) : genSplit [c] n [] = [[]] := by
  cases n with
  | zero => rfl
  | succ n =>
    unfold genSplit
    have : Cut [] [c] = none := (Cut_char_none_iff c []).mpr (List.not_mem_nil _)
    rw [this]

/-- A string that ends with the separator has an empty last piece. -/
theorem genSplit_trailing (c : Char) (n : Nat) :
    ∀ s : Str, s.length ≤ n → ([] : Str) ∈ genSplit [c] (n + 1) (s ++ [c]) := by
  induction n with
  | zero =>
    intro s hs
    have hs0 : s = [] := List.length_eq_zero.mp (Nat.le_zero.mp hs)
    subst hs0
    unfold genSplit
    have : Cut ([] ++ [c]) [c] = some ([], []) := Cut_char_first c [] [] (List.not_mem_nil _)
    rw [this]
    simp [genSplit]
  | succ m ih =>
    intro s hs
    unfold genSplit
    by_cases hc : c ∈ s
    · cases hcut : Cut s [c] with
      | none => exact absurd hc ((Cut_char_none_iff c s).mp hcut)
      | some ab =>
        obtain ⟨a, b⟩ := ab
        obtain ⟨hsab, hca⟩ := Cut_char_some c s a b hcut
        have h2 : Cut (s ++ [c]) [c] = some (a, b ++ [c]) := by
          have := Cut_char_first c a (b ++ [c]) hca
          rw [hsab]
          simpa using this
        rw [h2]
        have hb : b.length ≤ m := by
          have : s.length = a.length + (b.length + 1) := by rw [hsab]; simp
          omega
        exact List.mem_cons_of_mem _ (ih b hb)
    · have h2 : Cut (s ++ [c]) [c] = some (s, []) := Cut_char_first c s [] hc
      rw [h2]
      dsimp only
      rw [genSplit_nil]
      simp

theorem Split_trailing_comma (s : Str) : ([] : Str) ∈ Split (s ++ ",".toList) ",".toList := by
  unfold Split
  have : (s ++ ",".toList).length = s.length + 1 := by simp
  rw [this]
  exact genSplit_trailing ',' s.length s (Nat.le_refl _)

/-- C5 (amended): `main` returns with a configuration error at an entry `e`
exactly when `e` is a comma-separated entry without `=` that the loop reaches;
any entry without `=` keeps the listener from starting (so do the empty
specification string and a trailing comma), while an entry with at least one
`=` is never a configuration error and is recorded, split at its first `=`. -/
theorem main_rejects_entries_without_separator (lk : Str → Except Str (List IP))
    (upstreamSpec : Str) :
    (∀ e, (main lk upstreamSpec).2 = Exit.specError e ↔
        ∃ pre post, Split upstreamSpec ",".toList = pre ++ e :: post ∧
          (∀ p ∈ pre, ∀ t, (loopBody lk t p).2 = none) ∧ '=' ∉ e) ∧
    ((∃ e ∈ Split upstreamSpec ",".toList, '=' ∉ e) →
        (main lk upstreamSpec).2 ≠ Exit.listenAndServe) ∧
    (∀ t k v, '=' ∉ k →
        (∀ x, (loopBody lk t (k ++ '=' :: v)).2 ≠ some (Exit.specError x)) ∧
        mapLoad (loopBody lk t (k ++ '=' :: v)).1.upstreams k = some v) ∧
    (main lk []).2 = Exit.specError [] ∧
    (∀ s, (main lk (s ++ ",".toList)).2 ≠ Exit.listenAndServe) := by
  have hlisten : ∀ spec : Str, (∃ e ∈ Split spec ",".toList, '=' ∉ e) →
      (main lk spec).2 ≠ Exit.listenAndServe := by
    rintro spec ⟨e, he, hne⟩ hl
    have := (mainLoop_listen_iff lk _ _).mp hl e he { upstreams := [], dohClients := [] }
    rw [loopBody_no_sep lk _ e hne] at this
    exact Option.noConfusion this
  refine ⟨?_, hlisten upstreamSpec, ?_, ?_, ?_⟩
  · intro e
    unfold main
    rw [mainLoop_exit_iff lk _ _ (Exit.specError e) (by simp)]
    constructor
    · rintro ⟨pre, e2, post, h1, h2, h3⟩
      obtain ⟨hne, rfl⟩ := (loopBody_specError_iff lk _ e2 e).mp
        (h3 { upstreams := [], dohClients := [] })
      exact ⟨pre, post, h1, h2, hne⟩
    · rintro ⟨pre, post, h1, h2, hne⟩
      exact ⟨pre, e, post, h1, h2, fun t0 => (loopBody_specError_iff lk t0 e e).mpr ⟨hne, rfl⟩⟩
  · intro t k v hk
    have hsplit : SplitN (k ++ '=' :: v) "=".toList 2 = [k, v] := by
      rw [SplitN_two]
      have : Cut (k ++ '=' :: v) "=".toList = some (k, v) := Cut_char_first '=' k v hk
      rw [this]
    exact ⟨fun x => (loopBody_two_exit lk t _ k v hsplit x).1,
      (loopBody_two_exit lk t _ k v hsplit []).2.2⟩
  · rfl
  · intro s
    exact hlisten _ ⟨[], Split_trailing_comma s, List.not_mem_nil _⟩

/-- C7: when the bootstrap lookup for the hostname of a well-formed tunnel
entry `e` returns an error or no address, the listener is never started, the
client map is the one built from the entries before `e` (no client is stored
for `e`) and nothing after `e` matters; if every earlier entry passes, `main`
returns at `e` with the tables built from the earlier entries, the route of
`e` recorded (line 45) and no DoH client added. -/
theorem main_aborts_on_bootstrap_failure (lk : Str → Except Str (List IP))
    (upstreamSpec : Str) (pre post : List Str) (e k url : Str)
    (hsplit : Split upstreamSpec ",".toList = pre ++ e :: post)
    (he : SplitN e "=".toList 2 = [k, url])
    (hurl : HasPrefix url "https://".toList = true)
    (hfail : (∃ err, lk (dohDomain url) = .error err) ∨ lk (dohDomain url) = .ok []) :
    (main lk upstreamSpec).2 ≠ Exit.listenAndServe ∧
    (main lk upstreamSpec).1.dohClients =
      (mainLoop lk pre { upstreams := [], dohClients := [] }).1.dohClients ∧
    (∀ spec2 post2, Split spec2 ",".toList = pre ++ e :: post2 →
        main lk spec2 = main lk upstreamSpec) ∧
    ((∀ p ∈ pre, ∀ t, (loopBody lk t p).2 = none) →
      ∃ t exit,
        mainLoop lk pre { upstreams := [], dohClients := [] } = (t, Exit.listenAndServe) ∧
        main lk upstreamSpec =
          ({ upstreams := mapStore t.upstreams k url, dohClients := t.dohClients }, exit) ∧
        (exit = Exit.noIPs (dohDomain url) ∨
          ∃ err, exit = Exit.resolveFailed (dohDomain url) err)) := by
  have hbody : ∀ t, ∃ exit, loopBody lk t e =
      ({ upstreams := mapStore t.upstreams k url, dohClients := t.dohClients }, some exit) ∧
      (exit = Exit.noIPs (dohDomain url) ∨
          ∃ err, exit = Exit.resolveFailed (dohDomain url) err) := by
    intro t
    rw [loopBody_two lk t e k url he, if_pos hurl]
    rcases hfail with ⟨err, herr⟩ | hnil
    · rw [herr]
      exact ⟨_, rfl, Or.inr ⟨err, rfl⟩⟩
    · rw [hnil]
      exact ⟨_, rfl, Or.inl rfl⟩
  have hstop : ∀ (l : List Str) (rest : List Str) (t : Tables),
      mainLoop lk (l ++ e :: rest) t = mainLoop lk (l ++ [e]) t := by
    intro l rest t
    induction l generalizing t with
    | nil =>
      obtain ⟨exit, hb, -⟩ := hbody t
      have h2 : (loopBody lk t e).2 = some exit := by rw [hb]
      rw [List.nil_append, List.nil_append, mainLoop_cons_some lk t e rest exit h2,
        mainLoop_cons_some lk t e [] exit h2]
    | cons a l ih =>
      cases ha : (loopBody lk t a).2 with
      | none =>
        rw [List.cons_append, List.cons_append, mainLoop_cons_none lk t a _ ha,
          mainLoop_cons_none lk t a _ ha]
        exact ih _
      | some y =>
        rw [List.cons_append, List.cons_append, mainLoop_cons_some lk t a _ y ha,
          mainLoop_cons_some lk t a _ y ha]
  have hclients : ∀ (l : List Str) (rest : List Str) (t : Tables),
      (mainLoop lk (l ++ e :: rest) t).1.dohClients = (mainLoop lk l t).1.dohClients := by
    intro l rest t
    induction l generalizing t with
    | nil =>
      obtain ⟨exit, hb, -⟩ := hbody t
      have h2 : (loopBody lk t e).2 = some exit := by rw [hb]
      rw [List.nil_append, mainLoop_cons_some lk t e rest exit h2, hb]
      rfl
    | cons a l ih =>
      cases ha : (loopBody lk t a).2 with
      | none =>
        rw [List.cons_append, mainLoop_cons_none lk t a _ ha, mainLoop_cons_none lk t a _ ha]
        exact ih _
      | some y =>
        rw [List.cons_append, mainLoop_cons_some lk t a _ y ha,
          mainLoop_cons_some lk t a _ y ha]
  refine ⟨?_, ?_, ?_, ?_⟩
  · intro hl
    unfold main at hl
    have := (mainLoop_listen_iff lk _ _).mp hl e (by rw [hsplit]; simp)
      { upstreams := [], dohClients := [] }
    obtain ⟨exit, hb, -⟩ := hbody { upstreams := [], dohClients := [] }
    rw [hb] at this
    exact Option.noConfusion this
  · unfold main
    rw [hsplit]
    exact hclients pre post _
  · intro spec2 post2 h2
    unfold main
    rw [h2, hsplit, hstop pre post2, hstop pre post]
  · intro hpre
    obtain ⟨happ, hend⟩ := mainLoop_append lk pre (e :: post)
      { upstreams := [], dohClients := [] } hpre
    obtain ⟨exit, hb, hexit⟩ := hbody (mainLoop lk pre { upstreams := [], dohClients := [] }).1
    refine ⟨(mainLoop lk pre { upstreams := [], dohClients := [] }).1, exit, ?_, ?_, hexit⟩
    · rw [← hend]
    · unfold main
      rw [hsplit, happ, mainLoop_cons_some lk _ e post exit (by rw [hb]), hb]

/-! ## The bootstrap key when the hostname does not occur in the scheme -/

/-- A text without `/` that starts `p ++ "/" ++ rest` starts `p`. -/
theorem prefix_before_slash (p rest h : Str) (hp : h <+: p ++ '/' :: rest) (hs : '/' ∉ h) :
    h <+: p := by
  by_cases hlen : h.length ≤ p.length
  · exact List.prefix_of_prefix_length_le hp (List.prefix_append p _) hlen
  · exfalso
    have h1 : (p ++ ['/']) <+: p ++ '/' :: rest := by
      refine ⟨rest, ?_⟩
      simp
    have h2 : (p ++ ['/']) <+: h :=
      List.prefix_of_prefix_length_le h1 hp (by simp; omega)
    exact hs (h2.subset (by simp))

/-- When `h` starts at none of the positions inside `p`, the first occurrence
of `h` in `p ++ s` is its first occurrence in `s`. -/
theorem Cut_skip (h s : Str) :
    ∀ p : Str, (∀ i, i < p.length → ¬ h <+: (p.drop i ++ s)) →
      Cut (p ++ s) h = (Cut s h).map (fun ab => (p ++ ab.1, ab.2)) := by
  intro p
  induction p with
  | nil =>
    intro _
    rw [List.nil_append]
    cases hc : Cut s h with
    | none => rfl
    | some ab => rfl
  | cons c p ih =>
    intro hno
    have h0 : h.isPrefixOf (c :: (p ++ s)) = false := by
      have := hno 0 (by simp)
      rw [Bool.eq_false_iff]
      intro hp
      exact this (List.isPrefixOf_iff_prefix.mp hp)
    have hrest : ∀ i, i < p.length → ¬ h <+: (p.drop i ++ s) := by
      intro i hi
      have := hno (i + 1) (by simp; omega)
      simpa using this
    have hstep : Cut (c :: (p ++ s)) h =
        match Cut (p ++ s) h with
        | none => none
        | some (a, b) => some (c :: a, b) := by
      conv_lhs => unfold Cut
      rw [h0]
      rfl
    rw [List.cons_append, hstep, ih hrest]
    cases hc : Cut s h with
    | none => rfl
    | some ab => rfl

theorem Cut_self (h s : Str) (hne : h ≠ []) : Cut (h ++ s) h = some ([], s) := by
  cases h with
  | nil => exact absurd rfl hne
  | cons c t =>
    show Cut (c :: (t ++ s)) (c :: t) = _
    unfold Cut
    have hp : (c :: t).isPrefixOf (c :: (t ++ s)) = true :=
      List.isPrefixOf_iff_prefix.mpr (List.prefix_append (c :: t) s)
    rw [hp]
    have : List.drop (c :: t).length (c :: (t ++ s)) = s := List.drop_left (c :: t) s
    rw [if_pos rfl, this]

/-- The hostname `main` extracts from `https://host/path`. -/
theorem dohDomain_eq (host path : Str) (hs : '/' ∉ host) :
    dohDomain ("https://".toList ++ host ++ '/' :: path) = host := by
  unfold dohDomain TrimPrefix
  have hp : HasPrefix ("https://".toList ++ host ++ '/' :: path) "https://".toList = true := by
    unfold HasPrefix
    rw [List.append_assoc]
    exact List.isPrefixOf_iff_prefix.mpr (List.prefix_append _ _)
  rw [if_pos hp, List.append_assoc, List.drop_left]
  unfold Split
  have hlen : (host ++ '/' :: path).length = (host.length + path.length) + 1 := by
    simp; omega
  rw [hlen]
  unfold genSplit
  have : Cut (host ++ '/' :: path) "/".toList = some (host, path) :=
    Cut_char_first '/' host path hs
  rw [this]
  rfl

/-- The URL under which `main` stores the client of `https://host/path`, for
a hostname that is not empty, holds no `/` and does not occur in `https:`:
the hostname, and only the hostname, is replaced by the address. -/
theorem Replace1_host (host path ip : Str) (hne : host ≠ []) (hs : '/' ∉ host)
    (hscheme : ¬ host <:+: "https:".toList) :
    Replace1 ("https://".toList ++ host ++ '/' :: path) host ip =
      "https://".toList ++ ip ++ '/' :: path := by
  unfold Replace1
  by_cases heq : host = ip
  · rw [if_pos heq, heq]
  · rw [if_neg heq]
    have hskip : ∀ i, i < ("https://".toList).length →
        ¬ host <+: (("https://".toList).drop i ++ (host ++ '/' :: path)) := by
      intro i hi hp
      have hi8 : i < 8 := hi
      by_cases hi6 : i ≤ 6
      · have hsplit : ("https://".toList).drop i =
            ("https:".toList).drop i ++ "//".toList := by
          have : "https://".toList = "https:".toList ++ "//".toList := by decide
          rw [this]
          exact List.drop_append_of_le_length (by simpa using hi6)
        rw [hsplit] at hp
        have hp2 : host <+: ("https:".toList).drop i ++ '/' :: ('/' :: (host ++ '/' :: path)) := by
          simpa using hp
        have hp3 := prefix_before_slash _ _ host hp2 hs
        exact hscheme (hp3.isInfix.trans (List.drop_suffix i _).isInfix)
      · have hi7 : i = 7 := by omega
        subst hi7
        have hp2 : host <+: [] ++ '/' :: (host ++ '/' :: path) := by
          simpa using hp
        have hp3 := prefix_before_slash _ _ host hp2 hs
        exact hne (List.prefix_nil.mp hp3)
    have hcut : Cut ("https://".toList ++ host ++ '/' :: path) host =
        some ("https://".toList, '/' :: path) := by
      rw [List.append_assoc, Cut_skip host _ _ hskip, Cut_self host _ hne]
      simp
    rw [hcut]

/-- Lines 45-70 on an entry `k=https://host/path` whose hostname is not
empty, holds no `/`, does not occur in `https:` and resolves to at least one
address: the route is recorded and the client is stored under
`https://ip/path`. -/
theorem loopBody_bootstrap_key (lk : Str → Except Str (List IP)) (t : Tables)
    (k host path : Str) (ip : IP) (ips : List IP)
    (hk : '=' ∉ k) (hne : host ≠ []) (hs : '/' ∉ host)
    (hscheme : ¬ host <:+: "https:".toList)
    (hlk : lk host = .ok (ip :: ips)) :
    loopBody lk t (k ++ '=' :: ("https://".toList ++ host ++ '/' :: path)) =
      ({ upstreams := mapStore t.upstreams k ("https://".toList ++ host ++ '/' :: path),
         dohClients := mapStore t.dohClients ("https://".toList ++ ip.String ++ '/' :: path)
           { InsecureSkipVerify := false, TimeoutSeconds := 5 } }, none) := by
  have hsplit : SplitN (k ++ '=' :: ("https://".toList ++ host ++ '/' :: path)) "=".toList 2 =
      [k, "https://".toList ++ host ++ '/' :: path] := by
    rw [SplitN_two]
    have : Cut (k ++ '=' :: ("https://".toList ++ host ++ '/' :: path)) "=".toList =
        some (k, "https://".toList ++ host ++ '/' :: path) := Cut_char_first '=' k _ hk
    rw [this]
  have hp : HasPrefix ("https://".toList ++ host ++ '/' :: path) "https://".toList = true := by
    unfold HasPrefix
    rw [List.append_assoc]
    exact List.isPrefixOf_iff_prefix.mpr (List.prefix_append _ _)
  rw [loopBody_two lk t _ k _ hsplit, if_pos hp, dohDomain_eq host path hs, hlk]
  dsimp only
  rw [Replace1_host host path ip.String hne hs hscheme]

/-- The bootstrap key at the example of the specification:
`https://resolver.example/dns-query` with the address 9.9.9.9 is stored under
`https://9.9.9.9/dns-query`. -/
theorem loopBody_bootstrap_key_example :
    (loopBody lookupQuad9 { upstreams := [], dohClients := [] }
      "x=https://resolver.example/dns-query".toList).1.dohClients =
      [("https://9.9.9.9/dns-query".toList,
        { InsecureSkipVerify := false, TimeoutSeconds := 5 })] := by
  decide

/-! ## The claims at concrete inputs -/

/-- C1 (code defect): after a successful startup with the entry
`example.com=https://dns.google/dns-query` and `dns.google` resolving to
8.8.8.8, the only DoH client is stored under `https://8.8.8.8/dns-query`,
while a query for `www.example.com.` selects the table value
`https://dns.google/dns-query`; `resolveDoH` finds no client under that key
and the request is answered with the failure response. -/
theorem doh_client_missing_for_built_route (net : Net) :
    main sampleLookup "example.com=https://dns.google/dns-query".toList =
      ({ upstreams := [("example.com".toList, "https://dns.google/dns-query".toList)],
         dohClients := [("https://8.8.8.8/dns-query".toList,
           { InsecureSkipVerify := false, TimeoutSeconds := 5 })] },
        Exit.listenAndServe) ∧
    (resolveDoH net
        (main sampleLookup "example.com=https://dns.google/dns-query".toList).1.dohClients
        (sampleQuery "www.example.com.".toList) "https://dns.google/dns-query".toList).2 =
      .error "no DoH client for resolver: https://dns.google/dns-query".toList ∧
    handleRequest
        { defaultUpstream := "1.1.1.1".toList,
          dohClients :=
            (main sampleLookup "example.com=https://dns.google/dns-query".toList).1.dohClients,
          debug := false }
        net (main sampleLookup "example.com=https://dns.google/dns-query".toList).1.upstreams
        (sampleQuery "www.example.com.".toList) =
      Run.returned
        [Event.callResolveDoH (sampleQuery "www.example.com.".toList)
            "https://dns.google/dns-query".toList,
         Event.handleFailed (sampleQuery "www.example.com.".toList)] := by
  refine ⟨by decide, rfl, rfl⟩

/-- C4 (code defect): for the upstream `https://https/dns-query` (hostname
`https`) and the bootstrap address 9.9.9.9, the client is stored under
`9.9.9.9://https/dns-query`: the first occurrence of the hostname text is in
the scheme, and that one is replaced; nothing is stored under
`https://9.9.9.9/dns-query`. -/
theorem bootstrap_key_replaces_first_occurrence :
    dohDomain "https://https/dns-query".toList = "https".toList ∧
    main lookupQuad9 "x=https://https/dns-query".toList =
      ({ upstreams := [("x".toList, "https://https/dns-query".toList)],
         dohClients := [("9.9.9.9://https/dns-query".toList,
           { InsecureSkipVerify := false, TimeoutSeconds := 5 })] },
        Exit.listenAndServe) ∧
    mapLoad (main lookupQuad9 "x=https://https/dns-query".toList).1.dohClients
      "https://9.9.9.9/dns-query".toList = none := by
  decide

/-- C6 (code defect): `main` never looks at the default upstream.  With
`-upstreams corp.local=10.0.0.1` and `-default https://dns.google/dns-query`
startup succeeds with an empty client map, and a query for
`www.example.com.`, which matches no suffix, enters `resolveDoH` with the
default, finds no client and is answered with the failure response. -/
theorem default_doh_upstream_has_no_client (net : Net) :
    main sampleLookup "corp.local=10.0.0.1".toList =
      ({ upstreams := [("corp.local".toList, "10.0.0.1".toList)], dohClients := [] },
        Exit.listenAndServe) ∧
    handleRequest
        { defaultUpstream := "https://dns.google/dns-query".toList,
          dohClients := (main sampleLookup "corp.local=10.0.0.1".toList).1.dohClients,
          debug := false }
        net (main sampleLookup "corp.local=10.0.0.1".toList).1.upstreams
        (sampleQuery "www.example.com.".toList) =
      Run.returned
        [Event.callResolveDoH (sampleQuery "www.example.com.".toList)
            "https://dns.google/dns-query".toList,
         Event.handleFailed (sampleQuery "www.example.com.".toList)] := by
  refine ⟨by decide, rfl⟩

/-- C2 as stated fails: the suffixes `ample.com` and `example.com` are
different and neither is a label-wise subdomain of the other, the name
`www.example.com.` is a subdomain of `example.com`, yet a range that visits
`ample.com` first hands the query to the upstream of `ample.com`. -/
theorem label_disjoint_suffixes_misrouted :
    (∀ a ∈ [("ample.com".toList, "10.0.0.1".toList), ("example.com".toList, "10.0.0.2".toList)],
      ∀ b ∈ [("ample.com".toList, "10.0.0.1".toList), ("example.com".toList, "10.0.0.2".toList)],
        a ≠ b → a.1 ≠ b.1 ∧ ¬ (".".toList ++ b.1) <:+ a.1) ∧
    (".".toList ++ "example.com".toList ++ ".".toList) <:+ "www.example.com.".toList ∧
    selected (handleRequest sampleGlobals sampleNet
      [("ample.com".toList, "10.0.0.1".toList), ("example.com".toList, "10.0.0.2".toList)]
      (sampleQuery "www.example.com.".toList)) = ["10.0.0.1".toList] ∧
    selected (handleRequest sampleGlobals sampleNet
      [("ample.com".toList, "10.0.0.1".toList), ("example.com".toList, "10.0.0.2".toList)]
      (sampleQuery "www.example.com.".toList)) ≠ ["10.0.0.2".toList] := by
  decide

/-- C5 as stated fails: splitting `a=b=c` on `=` gives three parts, yet
`main` accepts the entry, records the suffix `a` with the upstream `b=c` and
starts the listener. -/
theorem entry_with_two_separators_accepted :
    (Split "a=b=c".toList "=".toList).length = 3 ∧
    main sampleLookup "a=b=c".toList =
      ({ upstreams := [("a".toList, "b=c".toList)], dohClients := [] },
        Exit.listenAndServe) := by
  decide

/-! ## Witnesses -/

/-- C3 at a name matching two entries (`corp.local` and `local`), visited in
the opposite order of the table. -/
theorem handleRequest_selects_default_or_match_witness :
    selected (handleRequest sampleGlobals sampleNet
        [("local".toList, "10.0.0.2".toList), ("corp.local".toList, "10.0.0.1".toList)]
        (sampleQuery "db.corp.local.".toList)) = ["10.0.0.1".toList] ∨
    selected (handleRequest sampleGlobals sampleNet
        [("local".toList, "10.0.0.2".toList), ("corp.local".toList, "10.0.0.1".toList)]
        (sampleQuery "db.corp.local.".toList)) = ["10.0.0.2".toList] :=
  (handleRequest_selects_default_or_match sampleGlobals sampleNet
    [("corp.local".toList, "10.0.0.1".toList), ("local".toList, "10.0.0.2".toList)]
    [("local".toList, "10.0.0.2".toList), ("corp.local".toList, "10.0.0.1".toList)]
    (sampleQuery "db.corp.local.".toList)
    { Name := "db.corp.local.".toList, Qtype := 1, Qclass := 1 } []
    (List.Perm.swap _ _ _) rfl).2.2
    ("corp.local".toList, "10.0.0.1".toList) ("local".toList, "10.0.0.2".toList) (by decide)

/-- C2 (amended) at the table `corp.local`, `example.com` and the name
`db.corp.local.`, with the range visiting `example.com` first. -/
theorem handleRequest_routes_to_suffix_witness :
    ("corp.local".toList ++ ".".toList) <:+ "db.corp.local.".toList ∧
    selected (handleRequest sampleGlobals sampleNet
        [("example.com".toList, "10.0.0.2".toList), ("corp.local".toList, "10.0.0.1".toList)]
        (sampleQuery "db.corp.local.".toList)) = ["10.0.0.1".toList] :=
  ⟨by decide,
   handleRequest_routes_to_suffix sampleGlobals sampleNet
    [("corp.local".toList, "10.0.0.1".toList), ("example.com".toList, "10.0.0.2".toList)]
    [("example.com".toList, "10.0.0.2".toList), ("corp.local".toList, "10.0.0.1".toList)]
    (sampleQuery "db.corp.local.".toList)
    { Name := "db.corp.local.".toList, Qtype := 1, Qclass := 1 } []
    "corp.local".toList "10.0.0.1".toList
    (List.Perm.swap _ _ _) rfl (by decide) (by decide) (by decide)⟩

/-- C5 (amended) at the specification string `onlyonepart`. -/
theorem main_rejects_entries_without_separator_witness :
    (main sampleLookup "onlyonepart".toList).2 = Exit.specError "onlyonepart".toList :=
  ((main_rejects_entries_without_separator sampleLookup "onlyonepart".toList).1
      "onlyonepart".toList).mpr
    ⟨[], [], by decide, fun p hp => absurd hp (List.not_mem_nil p), by decide⟩

/-- C7 at a specification whose second entry is a tunnel upstream and a
bootstrap lookup without address records. -/
theorem main_aborts_on_bootstrap_failure_witness :
    (main lookupEmpty
      "a=1.2.3.4,example.com=https://dns.google/dns-query,b=5.6.7.8".toList).2 ≠
        Exit.listenAndServe :=
  (main_aborts_on_bootstrap_failure lookupEmpty
    "a=1.2.3.4,example.com=https://dns.google/dns-query,b=5.6.7.8".toList
    ["a=1.2.3.4".toList] ["b=5.6.7.8".toList]
    "example.com=https://dns.google/dns-query".toList
    "example.com".toList "https://dns.google/dns-query".toList
    (by decide) (by decide) (by decide) (Or.inr rfl)).1

/-- C8 at the upstream `10.0.0.1`: the single exchange goes to
`10.0.0.1:53`. -/
theorem handleRequest_dispatch_witness :
    exchanges (handleRequest sampleGlobals sampleNet
        [("corp.local".toList, "10.0.0.1".toList)]
        (sampleQuery "db.corp.local.".toList)).trace =
      [(sampleQuery "db.corp.local.".toList, "10.0.0.1:53".toList)] :=
  ((handleRequest_dispatch sampleGlobals sampleNet
    [("corp.local".toList, "10.0.0.1".toList)]
    (sampleQuery "db.corp.local.".toList)
    { Name := "db.corp.local.".toList, Qtype := 1, Qclass := 1 } []
    "10.0.0.1".toList rfl (by decide)).2 (by decide)).2.1

/-- C9 at an upstream that does not answer: the one response is the failure
response. -/
theorem handleRequest_one_response_witness :
    responses (handleRequest sampleGlobals deadNet
        [("corp.local".toList, "10.0.0.1".toList)]
        (sampleQuery "db.corp.local.".toList)).trace =
      [Event.handleFailed (sampleQuery "db.corp.local.".toList)] :=
  (handleRequest_one_response sampleGlobals deadNet
    [("corp.local".toList, "10.0.0.1".toList)]
    (sampleQuery "db.corp.local.".toList)
    { Name := "db.corp.local.".toList, Qtype := 1, Qclass := 1 } []
    "10.0.0.1".toList rfl (by decide)).2.1 "i/o timeout".toList rfl

/-- C10 at a query with one question. -/
theorem handleRequest_first_question_witness :
    selected (handleRequest sampleGlobals sampleNet
        [("corp.local".toList, "10.0.0.1".toList)]
        (sampleQuery "db.corp.local.".toList)) =
      [selectUpstream sampleGlobals.defaultUpstream "db.corp.local.".toList
        [("corp.local".toList, "10.0.0.1".toList)]] :=
  ((handleRequest_first_question sampleGlobals sampleNet
    [("corp.local".toList, "10.0.0.1".toList)]
    (sampleQuery "db.corp.local.".toList)).1
    { Name := "db.corp.local.".toList, Qtype := 1, Qclass := 1 } [] rfl).2

end DnsRouter
